import Mathlib

/-!
Verification development for the McKinsey article-scraper service (`main.py`).

The core logic of the service — the article classifier `is_valid_article`,
the date normalizer `parse_date_for_sorting`, the history store
`load_existing_articles` / the inline save, the link-discovery diff
(`extract_latest_articles`, lines 389-495), and the content extractor
`scrape_article_content` — is shallowly embedded below as executable Lean
functions.  Python `datetime` values are modelled by year/month/day triples
with lexicographic comparison; JSON values by an inductive `Json` type;
the browser-rendered page by explicit page-model structures.  Exceptions
that the Python code catches are modelled by `Option`/flags; functions are
total exactly because every Python code path in scope is wrapped in a
handler.
-/

/-- Python `datetime` restricted to the fields this program constructs
(`datetime(y, m, d)`); comparison is lexicographic, as in Python. -/
structure PyDateTime where
  year : Nat
  month : Nat
  day : Nat
deriving DecidableEq

/-- Python `<` on `datetime`: lexicographic on (year, month, day). -/
def PyDateTime.lt (a b : PyDateTime) : Bool :=
  decide (a.year < b.year) ||
    (decide (a.year = b.year) &&
      (decide (a.month < b.month) ||
        (decide (a.month = b.month) && decide (a.day < b.day))))

/-- `datetime(1900, 1, 1)`, the fallback floor used throughout the code. -/
def epoch : PyDateTime := ⟨1900, 1, 1⟩

theorem PyDateTime.lt_iff (a b : PyDateTime) :
    PyDateTime.lt a b = true ↔
      (a.year < b.year ∨ (a.year = b.year ∧
        (a.month < b.month ∨ (a.month = b.month ∧ a.day < b.day)))) := by
  simp [PyDateTime.lt]

theorem PyDateTime.lt_irrefl (a : PyDateTime) : PyDateTime.lt a a = false := by
  rw [Bool.eq_false_iff]
  intro h
  rw [PyDateTime.lt_iff] at h
  omega

theorem PyDateTime.lt_asymm {a b : PyDateTime} (h : PyDateTime.lt a b = true) :
    PyDateTime.lt b a = false := by
  rw [PyDateTime.lt_iff] at h
  rw [Bool.eq_false_iff]
  intro hc
  rw [PyDateTime.lt_iff] at hc
  omega

theorem PyDateTime.lt_false_trans {a b c : PyDateTime}
    (h1 : PyDateTime.lt a b = false) (h2 : PyDateTime.lt b c = false) :
    PyDateTime.lt a c = false := by
  simp only [PyDateTime.lt, Bool.or_eq_false_iff, Bool.and_eq_false_iff,
    decide_eq_false_iff_not, decide_eq_true_eq] at h1 h2 ⊢
  omega

/-! ## Python string primitives (on `List Char` / `String`) -/

/-- Python `str.lower()` (the strings in this program are ASCII). -/
def strLower (s : String) : String := String.mk (s.data.map Char.toLower)

/-- Python `str.strip()`: drop leading and trailing whitespace. -/
def pyStrip (s : String) : String :=
  String.mk (((s.data.dropWhile Char.isWhitespace).reverse.dropWhile
    Char.isWhitespace).reverse)

/-- Word accumulator for `pyWords`: `cur` is the reversed current word. -/
def pyWordsGo : List Char → List Char → List (List Char)
  | [], cur => if cur = [] then [] else [cur.reverse]
  | c :: rest, cur =>
    if c.isWhitespace then
      if cur = [] then pyWordsGo rest []
      else cur.reverse :: pyWordsGo rest []
    else pyWordsGo rest (c :: cur)

/-- Python `str.split()` with no argument: maximal whitespace-separated
runs of non-whitespace characters, empty pieces dropped. -/
def pyWords (s : List Char) : List (List Char) := pyWordsGo s []

/-- Python `pat in s` (substring containment). -/
def strContainsSub : List Char → List Char → Bool
  | s, pat =>
    if pat.isPrefixOf s then true
    else match s with
      | [] => false
      | _ :: rest => strContainsSub rest pat

/-- Python `pat in s` on `String`s. -/
def strContains (s pat : String) : Bool := strContainsSub s.data pat.data

/-- Prepend a character onto the first piece of a split result. -/
def consHead (c : Char) : List (List Char) → List (List Char)
  | [] => [[]]
  | seg :: rest => (c :: seg) :: rest

/-- Python `s.split(sep)` (single-character separator, empty pieces kept). -/
def pySplitCh (sep : Char) : List Char → List (List Char)
  | [] => [[]]
  | c :: cs =>
    if c = sep then [] :: pySplitCh sep cs
    else consHead c (pySplitCh sep cs)

/-- Fuel-driven scanner for `pyReplace`; each step consumes at least one
character of `s`, so `s.length` fuel always suffices, and at fuel 0 the
remaining `s` is necessarily empty. -/
def pyReplaceGo : Nat → List Char → List Char → List Char → List Char
  | 0, s, _, _ => s
  | fuel + 1, s, pat, rep =>
    match s with
    | [] => []
    | c :: rest =>
      if pat ≠ [] ∧ pat.isPrefixOf (c :: rest) then
        rep ++ pyReplaceGo fuel ((c :: rest).drop pat.length) pat rep
      else c :: pyReplaceGo fuel rest pat rep

/-- Python `s.replace(pat, rep)` for a non-empty `pat`: replace every
non-overlapping occurrence, left to right. -/
def pyReplace (s pat rep : List Char) : List Char :=
  pyReplaceGo s.length s pat rep

/-- `article['url'].replace('https://www.mckinsey.com', '')`. -/
def stripOrigin (url : String) : String :=
  String.mk (pyReplace url.data "https://www.mckinsey.com".data [])

/-! ## Date normalizer (`parse_date_for_sorting`, main.py lines 88-101)

`datetime.strptime` is modelled for the two formats the code tries,
following CPython's `_strptime` regexes: `%B` is a case-insensitive full
month name, `%d` is `3[01]|[12]\d|0[1-9]|[1-9]` (with regex backtracking
into the one-digit alternative), `%Y` is exactly four digits, a space in
the format matches one or more whitespace characters, the whole string
must be consumed, and the resulting `datetime(y, m, d)` construction
validates the day against the month (leap years included) and rejects
year 0. -/

def digitVal (c : Char) : Nat := c.toNat - 48

/-- Lowercase full month names, as matched by `%B` under an English locale. -/
def monthNames : List (List Char) :=
  ["january".data, "february".data, "march".data, "april".data,
   "may".data, "june".data, "july".data, "august".data,
   "september".data, "october".data, "november".data, "december".data]

/-- Case-insensitive literal match of `pat` (given lowercase) as a prefix. -/
def stripPrefixCI : List Char → List Char → Option (List Char)
  | [], rest => some rest
  | p :: ps, c :: rest => if c.toLower = p then stripPrefixCI ps rest else none
  | _ :: _, [] => none

def matchMonthAux : List (List Char) → Nat → List Char → Option (Nat × List Char)
  | [], _, _ => none
  | m :: ms, i, cs =>
    match stripPrefixCI m cs with
    | some rest => some (i, rest)
    | none => matchMonthAux ms (i + 1) cs

/-- `%B`: match a full month name, return its 1-based number and the rest. -/
def matchMonth (cs : List Char) : Option (Nat × List Char) :=
  matchMonthAux monthNames 1 cs

/-- `\s+` in the compiled strptime pattern. -/
def wsPlus : List Char → Option (List Char)
  | c :: rest =>
    if c.isWhitespace then some (rest.dropWhile Char.isWhitespace) else none
  | [] => none

/-- `%Y`: exactly four digits. -/
def parseYear4 : List Char → Option (Nat × List Char)
  | a :: b :: c :: d :: rest =>
    if a.isDigit && b.isDigit && c.isDigit && d.isDigit then
      some (digitVal a * 1000 + digitVal b * 100 + digitVal c * 10 + digitVal d,
        rest)
    else none
  | _ => none

/-- `%d` / `%m`: a one- or two-digit field with value `1..maxV`; the
two-digit alternatives are tried first and the regex engine backtracks to
the one-digit alternative when the continuation `k` fails. -/
def numField2 {α : Type} (maxV : Nat) (k : List Char → Option α) :
    List Char → Option (Nat × α)
  | c1 :: c2 :: rest =>
    match
      (if c1.isDigit && c2.isDigit then
        (if 1 ≤ digitVal c1 * 10 + digitVal c2 ∧
            digitVal c1 * 10 + digitVal c2 ≤ maxV then
          (k rest).map (fun r => (digitVal c1 * 10 + digitVal c2, r))
        else none)
      else none) with
    | some r => some r
    | none =>
      if c1.isDigit && decide (1 ≤ digitVal c1) then
        (k (c2 :: rest)).map (fun r => (digitVal c1, r))
      else none
  | [c1] =>
    if c1.isDigit && decide (1 ≤ digitVal c1) then
      (k []).map (fun r => (digitVal c1, r))
    else none
  | [] => none

def isLeap (y : Nat) : Bool := y % 4 = 0 && (y % 100 ≠ 0 || y % 400 = 0)

def daysInMonth (y m : Nat) : Nat :=
  if m = 2 then (if isLeap y then 29 else 28)
  else if m = 4 || m = 6 || m = 9 || m = 11 then 30
  else 31

/-- `datetime(y, m, d)`: the constructor's own validation (year ≥ 1,
month in range, day in range for the month). -/
def mkDate (y m d : Nat) : Option PyDateTime :=
  if 1 ≤ y ∧ 1 ≤ m ∧ m ≤ 12 ∧ 1 ≤ d ∧ d ≤ daysInMonth y m then
    some ⟨y, m, d⟩
  else none

/-- `datetime.strptime(s, "%B %d, %Y")` (success as `some`). -/
def parseBdY (cs : List Char) : Option PyDateTime := do
  let (m, r1) ← matchMonth cs
  let r2 ← wsPlus r1
  let (d, y) ← numField2 31 (fun r =>
    match r with
    | ',' :: r' => do
        let r'' ← wsPlus r'
        let (y, rest) ← parseYear4 r''
        if rest = [] then some y else none
    | _ => none) r2
  mkDate y m d

/-- `datetime.strptime(s, "%Y-%m-%d")` (success as `some`). -/
def parseYmd (cs : List Char) : Option PyDateTime := do
  let (y, r1) ← parseYear4 cs
  match r1 with
  | '-' :: r2 => do
    let (m, d) ← numField2 12 (fun r =>
      match r with
      | '-' :: r3 =>
        (numField2 31 (fun rest => if rest = [] then some () else none) r3).map
          (fun p => p.1)
      | _ => none) r2
    mkDate y m d
  | _ => none

/-- `parse_date_for_sorting` (main.py 88-101).  Total: every Python
exception inside it is caught by the bare `except` clauses, so every
unparseable input degrades to the 1900-01-01 floor. -/
def parse_date_for_sorting (dateStr : String) : PyDateTime :=
  if dateStr = "" || dateStr = "未找到时间" then epoch
  else
    match parseBdY dateStr.data with
    | some d => d
    | none =>
      match parseYmd dateStr.data with
      | some d => d
      | none => epoch

/-- `parse_date_for_sorting` applied to a value that can be a string or
Python `None` (`not date_str` makes `None` fall to the floor). -/
def parseDateOpt : Option String → PyDateTime
  | none => epoch
  | some s => parse_date_for_sorting s

/-! ## Article classifier (`is_valid_article`, main.py lines 137-221) -/

def excluded_patterns : List String :=
  ["app-store", "play.google", "apple.com",
   "/careers", "/contact-us", "/search",
   "/subscribe", "/newsletter", "/events", "/privacy",
   "/terms", "/cookie", "/accessibility",
   "linkedin.com", "twitter.com", "facebook.com"]

def title_blacklist_exact : List String :=
  ["read the article", "read more", "learn more",
   "view article", "see more", "continue reading",
   "contact us", "contact", "scam warning", "terms of use",
   "local language information", "accessibility statement",
   "cookie notice", "privacy notice", "privacy policy",
   "more menu options", "subscribe", "newsletter",
   "more", "menu", "search", "login", "sign up", "register",
   "home", "about", "careers"]

def title_blacklist_partial : List String :=
  ["contact us", "scam warning", "terms of use",
   "local language information", "accessibility statement",
   "cookie notice", "privacy notice", "more menu options",
   "subscribe", "newsletter"]

def article_indicators : List String :=
  ["/our-insights/", "/capabilities/", "/industries/",
   "/featured-insights/", "/blog/", "/article/",
   "/about-us/new-at-mckinsey-blog/"]

/-- `is_valid_article(href, title, full_href)` (main.py 137-221), the pure
classifier predicate, translated branch for branch. -/
def is_valid_article (href title full_href : String) : Bool :=
  if href = "" || title = "" then false
  else if excluded_patterns.any (fun p => strContains (strLower full_href) p) then
    false
  else if title_blacklist_exact.contains (pyStrip (strLower title)) then false
  else if title_blacklist_partial.any
      (fun b => strContains (pyStrip (strLower title)) b) then false
  else if decide ((pyWords title.data).length ≤ 2) &&
      decide ((pyStrip title).length < 30) then false
  else if "...".data.isSuffixOf (pyStrip title).data &&
      decide ((pyStrip title).length < 30) then false
  else
    decide (15 ≤ (pyStrip title).length) &&
    article_indicators.any (fun ind => strContains (strLower full_href) ind) &&
    decide (10 < ((pySplitCh '/' href.data).getLastD []).length) &&
    !(["http", "www", "click"].any
        (fun p => p.data.isPrefixOf (strLower title).data))

/-! ## JSON values (the persisted history file) -/

/-- JSON values, as produced by `json.load` (objects keep key order; keys
in a parsed object are unique).  Numbers in this program are integers. -/
inductive Json where
  | null : Json
  | bool (b : Bool) : Json
  | num (n : Int) : Json
  | str (s : String) : Json
  | arr (xs : List Json) : Json
  | obj (kvs : List (String × Json)) : Json

mutual
/-- Python `==` on JSON values (structural equality). -/
def Json.beq : Json → Json → Bool
  | .null, .null => true
  | .bool a, .bool b => a == b
  | .num a, .num b => a == b
  | .str a, .str b => a == b
  | .arr xs, .arr ys => Json.beqList xs ys
  | .obj kvs, .obj lws => Json.beqObj kvs lws
  | _, _ => false
def Json.beqList : List Json → List Json → Bool
  | [], [] => true
  | x :: xs, y :: ys => Json.beq x y && Json.beqList xs ys
  | _, _ => false
def Json.beqObj : List (String × Json) → List (String × Json) → Bool
  | [], [] => true
  | (k, v) :: xs, (l, w) :: ys => k == l && Json.beq v w && Json.beqObj xs ys
  | _, _ => false
end

/-- First-match key lookup in a JSON object's field list. -/
def getField : List (String × Json) → String → Option Json
  | [], _ => none
  | (k, v) :: kvs, key => if k = key then some v else getField kvs key

def Json.getKey : Json → String → Option Json
  | .obj kvs, key => getField kvs key
  | _, _ => none

/-- Python hashability of a JSON value (`set.add` raises on list/dict). -/
def hashable : Json → Bool
  | .arr _ => false
  | .obj _ => false
  | _ => true

/-- Membership in the modelled Python `set` of seen values. -/
def jsonElem (u : Json) (l : List Json) : Bool :=
  l.any (fun v => Json.beq v u)

/-- `set.add`: a set is modelled as a duplicate-free list in insertion
order; only membership is ever consumed. -/
def addUrl (urls : List Json) (u : Json) : List Json :=
  if jsonElem u urls then urls else urls ++ [u]

/-- `parse_date_for_sorting(article.get('date', ''))` on a JSON value:
non-string truthy values make both `strptime` calls raise `TypeError`
(caught by the bare `except`), falsy ones hit the `not date_str` branch —
either way the floor results. -/
def parseDateJson : Json → PyDateTime
  | .str s => parse_date_for_sorting s
  | _ => epoch

/-- `len()` of a JSON value (`None`/numbers/booleans raise `TypeError`). -/
def pyLen : Json → Option Nat
  | .arr xs => some xs.length
  | .str s => some s.data.length
  | .obj kvs => some kvs.length
  | _ => none

/-! ## History store: `load_existing_articles` (main.py 103-135) -/

/-- State of the persisted `latest_two_articles.json` file. -/
inductive FileState where
  | absent : FileState
  | unparseable : FileState
  | content (j : Json) : FileState

/-- The `for article in all_historical_articles` loop (main.py 121-125):
`existing_urls.add(article['url'])` then the date high-water update.  The
returned flag records whether an exception cut the loop short (subscripting
a non-dict, a missing `'url'` key, or adding an unhashable value) — the
caller's `except` then logs it and returns the state accumulated so far. -/
def loadLoop : List Json → List Json → PyDateTime → List Json × PyDateTime × Bool
  | [], urls, d => (urls, d, false)
  | a :: rest, urls, d =>
    match a with
    | .obj kvs =>
      match getField kvs "url" with
      | some u =>
        if hashable u then
          loadLoop rest (addUrl urls u)
            (if PyDateTime.lt d (parseDateJson ((getField kvs "date").getD (.str ""))) then
              parseDateJson ((getField kvs "date").getD (.str ""))
            else d)
        else (urls, d, true)
      | none => (urls, d, true)
    | _ => (urls, d, true)

/-- Selection of `all_historical_articles` from the parsed file (main.py
114-118), with the flag recording a `TypeError` raised by the
`'latest_two_articles' in data` test or the subscript: membership on a
list or string that succeeds still makes the subscript raise, and `in` on
a non-container raises directly; in every raising case the initial empty
list is what the function ends up returning. -/
def histSelectE : Json → Json × Bool
  | .obj kvs => ((getField kvs "latest_two_articles").getD (.arr []), false)
  | .arr xs =>
    if jsonElem (.str "latest_two_articles") xs then (.arr [], true)
    else (.arr xs, false)
  | .str s => (.arr [], strContains s "latest_two_articles")
  | _ => (.arr [], true)

structure LoadResult where
  existing_urls : List Json
  latest_date : PyDateTime
  all_historical_articles : Json
  load_error : Bool

/-- `load_existing_articles` (main.py 103-135).  Total — the whole body is
wrapped in `try/except`; `load_error` records whether the except branch
logged a failure.  Iterating a non-list value for the record loop raises
`TypeError` at the first element (strings/dicts iterate over
characters/keys, whose subscripting then raises), leaving the initial
empty URL set and epoch floor in place but the selected value already
bound to `all_historical_articles`. -/
def load_existing_articles : FileState → LoadResult
  | .absent => ⟨[], epoch, .arr [], false⟩
  | .unparseable => ⟨[], epoch, .arr [], true⟩
  | .content data =>
    if (histSelectE data).2 = true then ⟨[], epoch, .arr [], true⟩
    else
      match (histSelectE data).1 with
      | .arr xs =>
        ⟨(loadLoop xs [] epoch).1, (loadLoop xs [] epoch).2.1, .arr xs,
          (loadLoop xs [] epoch).2.2⟩
      | .str s => ⟨[], epoch, .str s, decide (s ≠ "")⟩
      | .obj kvs => ⟨[], epoch, .obj kvs, !kvs.isEmpty⟩
      | v => ⟨[], epoch, v, true⟩

/-- A historical record the load loop can process: an object carrying a
hashable `url` value. -/
def wfRecord : Json → Bool
  | .obj kvs =>
    (match getField kvs "url" with
     | some u => hashable u
     | none => false)
  | _ => false

/-- A well-formed persisted history: a JSON array all of whose records the
load loop can process. -/
def wfHist : Json → Bool
  | .arr xs => xs.all wfRecord
  | _ => false

/-! ## Link discovery: diff, rank/cap, and save
(`extract_latest_articles`, main.py 424-495) -/

/-- A candidate article dict as built during link discovery
(`{"title": ..., "url": ..., "date": ..., "snippet": ""}`); `date` is
`none` for Python `None`. -/
structure Article where
  title : String
  url : String
  date : Option String
  snippet : String
deriving DecidableEq

/-- The sort key used on line 446: `parse_date_for_sorting(x['date'])`. -/
def articleKey (a : Article) : PyDateTime := parseDateOpt a.date

/-- Descending-order relation on candidates: the left one's normalized
date is not below the right one's. -/
def dateGE (x y : Article) : Prop :=
  PyDateTime.lt (articleKey x) (articleKey y) = false

/-- The article dict as serialized into the history file by `json.dump`. -/
def articleToJson (a : Article) : Json :=
  .obj [("title", .str a.title), ("url", .str a.url),
    ("date", match a.date with | some s => .str s | none => .null),
    ("snippet", .str a.snippet)]

/-- The condition of lines 429-432: unseen URL, date strictly past the
watermark, and the defensive classifier re-check on the origin-stripped
URL. -/
def diffCondition (existing_urls : List Json) (latest_date : PyDateTime)
    (a : Article) : Bool :=
  !(jsonElem (Json.str a.url) existing_urls) &&
    PyDateTime.lt latest_date (parseDateOpt a.date) &&
    is_valid_article (stripOrigin a.url) a.title a.url

/-- The `newer_articles` accumulation loop (main.py 425-441): an
order-preserving filter of the candidate list. -/
def newerArticles (existing_urls : List Json) (latest_date : PyDateTime)
    (cands : List Article) : List Article :=
  cands.filter (diffCondition existing_urls latest_date)

/-- Stable descending insertion: an element moves past exactly those
elements with a strictly greater key, so equal keys keep their original
relative order — extensionally `list.sort(key=..., reverse=True)`. -/
def insertDesc (a : Article) : List Article → List Article
  | [] => [a]
  | b :: bs =>
    if PyDateTime.lt (articleKey a) (articleKey b) then b :: insertDesc a bs
    else a :: b :: bs

/-- `newer_articles.sort(key=lambda x: parse_date_for_sorting(x['date']),
reverse=True)` (main.py 446): a stable descending sort by normalized date;
Python's sort is stable, and every stable sort under the same key agrees
with it. -/
def sortByDateDesc (l : List Article) : List Article := l.foldr insertDesc []

/-- `latest_two = newer_articles[:2]` after the sort (main.py 446-447). -/
def rankAndCap (newer : List Article) : List Article :=
  (sortByDateDesc newer).take 2

/-- The result object written with `json.dump` (main.py 460-469 and
476-485); dict insertion order is preserved. -/
def saveFile (now : String) (total newCount histCount : Nat) (hist : Json) :
    Json :=
  .obj [("extraction_time", .str now),
    ("total_articles_found", .num total),
    ("new_articles_found", .num newCount),
    ("total_historical_count", .num histCount),
    ("latest_two_articles", hist)]

/-- Observable outcome of one discovery run: the file written (none when
an exception aborted the run before the write — the outer handler then
returns `[]`) and the returned `latest_two` list. -/
structure RunOutput where
  savedFile : Option Json
  returned : List Article

/-- The pure tail of `extract_latest_articles` (main.py 424-495), from the
reconciled candidate list onwards: load history, diff, rank and cap,
append, save, return.  `len(all_historical_articles)` on a non-sized value
and `all_historical_articles + latest_two` on a non-list both raise
`TypeError`, caught by the outer handler (no save, empty return). -/
def runDiscovery (file : FileState) (cands : List Article) (now : String) :
    RunOutput :=
  let L := load_existing_articles file
  let latest_two := rankAndCap (newerArticles L.existing_urls L.latest_date cands)
  if latest_two.isEmpty then
    match pyLen L.all_historical_articles with
    | some n =>
      ⟨some (saveFile now cands.length 0 n L.all_historical_articles), []⟩
    | none => ⟨none, []⟩
  else
    match L.all_historical_articles with
    | .arr hs =>
      ⟨some (saveFile now cands.length latest_two.length
          (hs ++ latest_two.map articleToJson).length
          (.arr (hs ++ latest_two.map articleToJson))),
        latest_two⟩
    | _ => ⟨none, []⟩

/-! ## Reconciliation fallback (main.py 389-421) -/

/-- The sentinel date string `"未找到时间"` assigned when no date element is
available. -/
def dateNotFound : String := "未找到时间"

/-- The supplement loop (main.py 410-418): candidates whose URL is not in
the frozen `matched_urls` set get the next date from the page-wide pool
(starting at index `len(matched_articles)`) or the sentinel once the pool
is exhausted, and are appended to the matched list. -/
def supplementLoop (matchedUrls : List String) (pool : List String) :
    List Article → Nat → List Article → List Article
  | [], _, acc => acc
  | a :: rest, idx, acc =>
    if matchedUrls.contains a.url then supplementLoop matchedUrls pool rest idx acc
    else supplementLoop matchedUrls pool rest (idx + 1)
      (acc ++ [{ a with date := some (pool.getD idx dateNotFound) }])

/-- The reconciliation fallback (main.py 389-421): when container pairing
matched fewer articles than the selector pass found, every unmatched
candidate is appended with a positional date from the flat pool. -/
def reconcile (matched all_articles : List Article) (pool : List String) :
    List Article :=
  if matched.length < all_articles.length then
    supplementLoop (matched.map (·.url)) pool all_articles matched.length matched
  else matched

/-! ## Content extractor (`scrape_article_content`, main.py 534-677) -/

/-- The rendered article page as the extractor queries it: the first `h1`
element's text, the first `time[datetime]` element (its `datetime`
attribute — possibly absent — and its inner text), and the `[role='main']`
region's paragraph texts (`none` when the region is missing). -/
structure PageModel where
  h1 : Option String
  timeElem : Option (Option String × String)
  mainParas : Option (List String)

/-- The result dict of `scrape_article_content`; `date` is `none` for
Python `None`. -/
structure ScrapeResult where
  title : String
  url : String
  date : Option String
  content : List String
  markdown : String
  success : Bool
  error : Option String

/-- Python `date_text or article_date` (falsy string falls through). -/
def pyOrStr (a : String) (b : Option String) : Option String :=
  if a ≠ "" then some a else b

/-- The Markdown assembly of main.py 632-641. -/
def mkMarkdown (t dt : String) (ad : Option String) (url : String)
    (content : List String) : String :=
  let md := "# " ++ t ++ "\n\n"
  let md := if dt ≠ "" then md ++ "**发布日期**: " ++ dt ++ "\n" else md
  let md := match ad with
    | some s => if s ≠ "" then md ++ "**日期**: " ++ s ++ "\n" else md
    | none => md
  let md := md ++ "**原文链接**: " ++ url ++ "\n\n" ++ "## 正文内容\n\n"
  content.foldl (fun acc p => acc ++ p ++ "\n\n") md

/-- `scrape_article_content` (main.py 534-677).  `page` is `.error e` when
navigation failed after all retries (the retry loop re-raises and the
outer handler returns the failure record built from `str(e)`); otherwise
the rendered page model.  Total: every failure path is caught inside the
function, so a result record is always returned. -/
def scrape_article_content (article_url : String)
    (page : Except String PageModel) : ScrapeResult :=
  match page with
  | .error e => ⟨"抓取失败", article_url, some "", [], "", false, some e⟩
  | .ok pm =>
    let article_title := match pm.h1 with
      | some t => pyStrip t
      | none => "未知标题"
    let article_date : Option String := match pm.timeElem with
      | some (attr, _) => attr
      | none => some ""
    let date_text : String := match pm.timeElem with
      | some (_, txt) => pyStrip txt
      | none => ""
    match pm.mainParas with
    | some paras =>
      let content := (paras.map pyStrip).filter (fun t => 20 < t.length)
      ⟨article_title, article_url, pyOrStr date_text article_date, content,
        mkMarkdown article_title date_text article_date article_url content,
        true, none⟩
    | none =>
      ⟨article_title, article_url, pyOrStr date_text article_date, [], "",
        false, some "未找到主要内容"⟩

/-! ## Supporting lemmas -/

theorem consHead_ne_nil (c : Char) (r : List (List Char)) : consHead c r ≠ [] := by
  cases r <;> simp [consHead]

theorem pySplitCh_ne_nil (sep : Char) (l : List Char) : pySplitCh sep l ≠ [] := by
  cases l with
  | nil => simp [pySplitCh]
  | cons c cs =>
    unfold pySplitCh
    split
    · simp
    · exact consHead_ne_nil c _

theorem pySplitCh_eq_single (sep : Char) (l : List Char)
    (h : pySplitCh sep l = [[]]) : l = [] := by
  cases l with
  | nil => rfl
  | cons c cs =>
    exfalso
    unfold pySplitCh at h
    split at h
    · have : pySplitCh sep cs = [] := by simpa using h
      exact pySplitCh_ne_nil sep cs this
    · cases hr : pySplitCh sep cs with
      | nil => exact pySplitCh_ne_nil sep cs hr
      | cons r1 rs =>
        rw [hr] at h
        simp [consHead] at h

theorem pySplitCh_getLast_sep (sep : Char) (cs : List Char) :
    (pySplitCh sep (cs ++ [sep])).getLast? = some [] := by
  induction cs with
  | nil => simp [pySplitCh]
  | cons c cs ih =>
    rw [List.cons_append]
    unfold pySplitCh
    by_cases hc : c = sep
    · simp only [hc, if_true]
      cases hr : pySplitCh sep (cs ++ [sep]) with
      | nil => exact absurd hr (pySplitCh_ne_nil sep _)
      | cons r1 rs =>
        rw [hr] at ih
        rw [List.getLast?_cons_cons]
        exact ih
    · simp only [hc, if_false]
      cases hr : pySplitCh sep (cs ++ [sep]) with
      | nil => exact absurd hr (pySplitCh_ne_nil sep _)
      | cons r1 rs =>
        rw [hr] at ih
        cases rs with
        | nil =>
          have hr1 : r1 = [] := by simpa using ih
          subst hr1
          have := pySplitCh_eq_single sep (cs ++ [sep]) hr
          simp at this
        | cons r2 rs' =>
          simp only [consHead]
          rw [List.getLast?_cons_cons]
          rw [List.getLast?_cons_cons] at ih
          exact ih

theorem pySplitCh_getLastD_sep (sep : Char) (cs : List Char) :
    (pySplitCh sep (cs ++ [sep])).getLastD [] = [] := by
  rw [List.getLastD_eq_getLast?, pySplitCh_getLast_sep]
  rfl

/-! ## C9: classifier title-length floor -/

/-- C9.  For every path, title and absolute URL, if the trimmed title is
shorter than 15 characters then `is_valid_article` returns `false`: each
early branch returns `false` outright, and the final conjunction requires
`len(title.strip()) >= 15`. -/
theorem classifier_title_floor (href title full_href : String)
    (h : (pyStrip title).length < 15) :
    is_valid_article href title full_href = false := by
  unfold is_valid_article
  split
  · rfl
  split
  · rfl
  split
  · rfl
  split
  · rfl
  split
  · rfl
  split
  · rfl
  have h15 : decide (15 ≤ (pyStrip title).length) = false := by
    simp only [decide_eq_false_iff_not]
    omega
  rw [h15]
  rfl

theorem classifier_title_floor_witness :
    (pyStrip "short").length < 15 ∧
      is_valid_article "/x" "short" "https://x" = false :=
  ⟨by decide, classifier_title_floor "/x" "short" "https://x" (by decide)⟩

/-! ## C10: classifier trailing-slash rejection -/

/-- C10.  If the path ends with `'/'`, the final `'/'`-split segment is
empty, `has_meaningful_url` (`len > 10`) fails, and `is_valid_article`
returns `false` regardless of the other inputs. -/
theorem classifier_trailing_slash (href title full_href : String)
    (h : ∃ t, href.data = t ++ ['/']) :
    is_valid_article href title full_href = false := by
  obtain ⟨t, ht⟩ := h
  unfold is_valid_article
  split
  · rfl
  split
  · rfl
  split
  · rfl
  split
  · rfl
  split
  · rfl
  split
  · rfl
  rw [ht, pySplitCh_getLastD_sep]
  simp

theorem classifier_trailing_slash_witness :
    "/our-insights/".data = "/our-insights".data ++ ['/'] ∧
      is_valid_article "/our-insights/" "A long enough example title"
        "https://www.mckinsey.com/our-insights/" = false :=
  ⟨by decide,
    classifier_trailing_slash _ _ _ ⟨"/our-insights".data, by decide⟩⟩

/-! ## C1: the diff against history -/

/-- C1.  A candidate lands in `newer_articles` iff it is in the reconciled
candidate list, its `url` is not in `existing_urls`, its normalized date is
strictly greater than `latest_date`, and the classifier re-check on the
origin-stripped URL passes (main.py 424-441). -/
theorem diff_filter_characterization (existing_urls : List Json)
    (latest_date : PyDateTime) (cands : List Article) (a : Article) :
    a ∈ newerArticles existing_urls latest_date cands ↔
      (a ∈ cands ∧
        jsonElem (Json.str a.url) existing_urls = false ∧
        PyDateTime.lt latest_date (parseDateOpt a.date) = true ∧
        is_valid_article (stripOrigin a.url) a.title a.url = true) := by
  unfold newerArticles diffCondition
  rw [List.mem_filter]
  simp only [Bool.and_eq_true, Bool.not_eq_true']
  tauto

theorem diff_filter_witness :
    (⟨"Quantum insight frontier",
        "https://www.mckinsey.com/our-insights/abcdefghijkl",
        some "September 10, 2025", ""⟩ : Article) ∈
      newerArticles [] epoch
        [⟨"Quantum insight frontier",
          "https://www.mckinsey.com/our-insights/abcdefghijkl",
          some "September 10, 2025", ""⟩] ↔
      ((⟨"Quantum insight frontier",
          "https://www.mckinsey.com/our-insights/abcdefghijkl",
          some "September 10, 2025", ""⟩ : Article) ∈
        [(⟨"Quantum insight frontier",
          "https://www.mckinsey.com/our-insights/abcdefghijkl",
          some "September 10, 2025", ""⟩ : Article)] ∧
        jsonElem (Json.str "https://www.mckinsey.com/our-insights/abcdefghijkl")
          [] = false ∧
        PyDateTime.lt epoch (parseDateOpt (some "September 10, 2025")) = true ∧
        is_valid_article
          (stripOrigin "https://www.mckinsey.com/our-insights/abcdefghijkl")
          "Quantum insight frontier"
          "https://www.mckinsey.com/our-insights/abcdefghijkl" = true) :=
  diff_filter_characterization [] epoch _ _

/-! ## C4: load error handling -/

/-- C4 as amended.  `load_existing_articles` never raises (it is total);
an absent file yields empty state without an error log, an unreadable or
JSON-unparseable file yields empty state with the failure logged; a
`TypeError` raised by the `'latest_two_articles' in data` test or its
subscript also yields empty state; but a failure while scanning the parsed
records does NOT reset to empty state — the selected historical sequence
is returned as loaded (with only the URL set and watermark accumulated
before the failing record), so the original claim's "empty state on any
parse failure" fails there. -/
theorem load_error_behavior :
    load_existing_articles .absent = ⟨[], epoch, .arr [], false⟩ ∧
    load_existing_articles .unparseable = ⟨[], epoch, .arr [], true⟩ ∧
    (∀ data : Json, (histSelectE data).2 = true →
      load_existing_articles (.content data) = ⟨[], epoch, .arr [], true⟩) ∧
    (∀ data : Json, (histSelectE data).2 = false →
      (load_existing_articles (.content data)).all_historical_articles =
        (histSelectE data).1) := by
  refine ⟨rfl, rfl, ?_, ?_⟩
  · intro data h
    simp [load_existing_articles, h]
  · intro data h
    simp only [load_existing_articles, h]
    cases hv : (histSelectE data).1 <;> simp [hv]

theorem load_error_behavior_witness :
    (histSelectE (.num 3)).2 = true ∧
      load_existing_articles (.content (.num 3)) = ⟨[], epoch, .arr [], true⟩ :=
  ⟨rfl, load_error_behavior.2.2.1 (.num 3) rfl⟩

/-- C4 counterexample.  A history file whose single record lacks a `url`
key: the record loop raises `KeyError`, the `except` branch logs the load
failure (`load_error = true`), yet the returned state is NOT empty — the
historical sequence keeps the unusable record while the URL set and
watermark are reset, contradicting "on any read or parse failure, returns
empty state". -/
theorem load_error_nonempty_cex :
    (load_existing_articles
        (.content (.arr [.obj [("title", .str "x")]]))).load_error = true ∧
    (load_existing_articles
        (.content (.arr [.obj [("title", .str "x")]]))).existing_urls = [] ∧
    (load_existing_articles
        (.content (.arr [.obj [("title", .str "x")]]))).all_historical_articles ≠
      .arr [] := by
  refine ⟨rfl, rfl, ?_⟩
  intro h
  simp [load_existing_articles, histSelectE, jsonElem, Json.beq, getField,
    loadLoop] at h

/-! ## C8: content extractor failure shape -/

/-- C8.  `scrape_article_content` always returns a result record (the
function is total: navigation failure after the bounded retries and every
extraction error are caught inside).  When the rendered page has no
`[role='main']` region, the record has `success = false`, `content = []`
and the non-null error string `"未找到主要内容"`, while the title is the
trimmed `h1` text or the `"未知标题"` sentinel. -/
theorem content_extractor_failure_shape :
    (∀ (url : String) (pm : PageModel), pm.mainParas = none →
      (scrape_article_content url (.ok pm)).success = false ∧
      (scrape_article_content url (.ok pm)).content = [] ∧
      (scrape_article_content url (.ok pm)).error = some "未找到主要内容" ∧
      (scrape_article_content url (.ok pm)).title =
        (match pm.h1 with | some t => pyStrip t | none => "未知标题")) ∧
    (∀ url e : String,
      (scrape_article_content url (.error e)).success = false ∧
      (scrape_article_content url (.error e)).content = [] ∧
      (scrape_article_content url (.error e)).error = some e) := by
  constructor
  · intro url pm hp
    obtain ⟨h1v, tev, mpv⟩ := pm
    simp only at hp
    subst hp
    exact ⟨rfl, rfl, rfl, rfl⟩
  · intro url e
    exact ⟨rfl, rfl, rfl⟩

theorem content_extractor_failure_witness :
    (PageModel.mk (some "A title") none none).mainParas = none ∧
      (scrape_article_content "https://x"
        (.ok (PageModel.mk (some "A title") none none))).success = false :=
  ⟨rfl, (content_extractor_failure_shape.1 "https://x"
      (PageModel.mk (some "A title") none none) rfl).1⟩

/-! ## C6: date normalizer totality and floor -/

theorem mkDate_some {y m d : Nat} {dt : PyDateTime} (h : mkDate y m d = some dt) :
    dt = ⟨y, m, d⟩ ∧ 1 ≤ y ∧ 1 ≤ m ∧ m ≤ 12 ∧ 1 ≤ d := by
  unfold mkDate at h
  split at h
  · cases h
    refine ⟨rfl, ?_, ?_, ?_, ?_⟩ <;> omega
  · cases h

theorem parseBdY_mkDate {cs : List Char} {dt : PyDateTime}
    (h : parseBdY cs = some dt) : ∃ y m d, mkDate y m d = some dt := by
  unfold parseBdY at h
  simp only [bind, Option.bind_eq_some] at h
  obtain ⟨⟨m, r1⟩, _, h⟩ := h
  obtain ⟨r2, _, h⟩ := h
  obtain ⟨⟨d, y⟩, _, h⟩ := h
  exact ⟨y, m, d, h⟩

theorem parseYmd_mkDate {cs : List Char} {dt : PyDateTime}
    (h : parseYmd cs = some dt) : ∃ y m d, mkDate y m d = some dt := by
  unfold parseYmd at h
  simp only [bind, Option.bind_eq_some] at h
  obtain ⟨⟨y, r1⟩, _, h⟩ := h
  split at h
  · simp only [bind, Option.bind_eq_some] at h
    obtain ⟨⟨m, d⟩, _, h⟩ := h
    exact ⟨y, m, d, h⟩
  · cases h

/-- C6 as amended.  `parse_date_for_sorting` is total by construction
(every `strptime` failure is caught); every string matched by neither
`"%B %d, %Y"` nor `"%Y-%m-%d"` — the empty string and the `"未找到时间"`
sentinel included — normalizes to the `datetime(1900, 1, 1)` floor; and
the floor compares less than or equal to the result of any successfully
parsed date string whose year is at least 1900.  (The original claim's
"floor < any successfully parsed date" fails: both formats accept years
before 1900, which parse successfully yet compare BELOW the floor.) -/
theorem date_normalizer_amended :
    (∀ s : String, parseBdY s.data = none → parseYmd s.data = none →
      parse_date_for_sorting s = epoch) ∧
    (∀ (s : String) (dt : PyDateTime),
      (parseBdY s.data = some dt ∨ parseYmd s.data = some dt) →
      1900 ≤ dt.year → PyDateTime.lt dt epoch = false) ∧
    parse_date_for_sorting "" = epoch ∧
    parse_date_for_sorting "未找到时间" = epoch := by
  refine ⟨?_, ?_, rfl, rfl⟩
  · intro s h1 h2
    unfold parse_date_for_sorting
    rw [h1, h2]
    split <;> rfl
  · intro s dt h hy
    have hb : ∃ y m d, mkDate y m d = some dt := by
      rcases h with h | h
      · exact parseBdY_mkDate h
      · exact parseYmd_mkDate h
    obtain ⟨y, m, d, hmk⟩ := hb
    obtain ⟨hdt, _, hm, _, hd⟩ := mkDate_some hmk
    subst hdt
    rw [Bool.eq_false_iff]
    intro hc
    rw [PyDateTime.lt_iff] at hc
    simp only [epoch] at hc
    simp only at hy
    omega

theorem date_normalizer_amended_witness :
    (parseBdY "hello".data = none ∧ parseYmd "hello".data = none ∧
      parse_date_for_sorting "hello" = epoch) ∧
    (parseBdY "September 10, 2025".data = some ⟨2025, 9, 10⟩ ∧
      PyDateTime.lt ⟨2025, 9, 10⟩ epoch = false) :=
  ⟨⟨by decide, by decide,
      date_normalizer_amended.1 "hello" (by decide) (by decide)⟩,
    ⟨by decide,
      date_normalizer_amended.2.1 "September 10, 2025" ⟨2025, 9, 10⟩
        (Or.inl (by decide)) (by decide)⟩⟩

/-- C6 counterexample.  `"September 10, 1899"` is successfully parsed by
the `"%B %d, %Y"` attempt, yet its result compares strictly BELOW the
`datetime(1900, 1, 1)` floor — refuting "this floor compares less than
the result of any successfully parsed date string". -/
theorem date_floor_cex :
    parseBdY "September 10, 1899".data = some ⟨1899, 9, 10⟩ ∧
    parse_date_for_sorting "September 10, 1899" = ⟨1899, 9, 10⟩ ∧
    PyDateTime.lt ⟨1899, 9, 10⟩ epoch = true := by
  refine ⟨by decide, by decide, by decide⟩

/-! ## C7: reconciliation fallback never loses candidates -/

theorem supplementLoop_extends (mU : List String) (pool : List String) :
    ∀ (l : List Article) (idx : Nat) (acc : List Article),
      ∃ tail, supplementLoop mU pool l idx acc = acc ++ tail := by
  intro l
  induction l with
  | nil => intro idx acc; exact ⟨[], by simp [supplementLoop]⟩
  | cons a rest ih =>
    intro idx acc
    unfold supplementLoop
    split
    · exact ih idx acc
    · obtain ⟨tail, ht⟩ :=
        ih (idx + 1) (acc ++ [{ a with date := some (pool.getD idx dateNotFound) }])
      exact ⟨{ a with date := some (pool.getD idx dateNotFound) } :: tail,
        by rw [ht]; simp⟩

theorem supplementLoop_mem_acc (mU : List String) (pool : List String)
    (l : List Article) (idx : Nat) (acc : List Article) (b : Article)
    (hb : b ∈ acc) : b ∈ supplementLoop mU pool l idx acc := by
  obtain ⟨tail, ht⟩ := supplementLoop_extends mU pool l idx acc
  rw [ht]
  exact List.mem_append_left _ hb

theorem supplementLoop_covers (mU : List String) (pool : List String) :
    ∀ (l : List Article) (idx : Nat) (acc : List Article) (a : Article),
      a ∈ l → mU.contains a.url = false →
      ∃ d, ({ a with date := some d } : Article) ∈ supplementLoop mU pool l idx acc ∧
        (d ∈ pool ∨ d = dateNotFound) := by
  intro l
  induction l with
  | nil => intro idx acc a ha; simp at ha
  | cons x rest ih =>
    intro idx acc a ha hcont
    unfold supplementLoop
    rcases List.mem_cons.mp ha with rfl | ha'
    · rw [hcont]
      simp only [Bool.false_eq_true, if_false]
      refine ⟨pool.getD idx dateNotFound, ?_, ?_⟩
      · apply supplementLoop_mem_acc
        simp
      · rcases hg : pool.get? idx with _ | v
        · right
          have hg' := hg
          rw [List.get?_eq_getElem?] at hg'
          simp [List.getD, hg']
        · left
          have hg' := hg
          rw [List.get?_eq_getElem?] at hg'
          have hv : pool.getD idx dateNotFound = v := by simp [List.getD, hg']
          rw [hv]
          exact List.get?_mem hg
    · split
      · exact ih idx acc a ha' hcont
      · exact ih (idx + 1) _ a ha' hcont

/-- C7.  When container pairing matched fewer articles than the selector
pass found, the fallback only appends: the final list extends the matched
list, every candidate's URL appears in it (no candidate is lost), and
every unmatched candidate reappears with some date drawn from the
page-wide pool or the `"未找到时间"` sentinel (main.py 389-421). -/
theorem reconciliation_no_loss (matched all_articles : List Article)
    (pool : List String) (h : matched.length < all_articles.length) :
    (∃ tail, reconcile matched all_articles pool = matched ++ tail) ∧
    (∀ a ∈ all_articles,
      ∃ b ∈ reconcile matched all_articles pool, b.url = a.url) ∧
    (∀ a ∈ all_articles, (matched.map (·.url)).contains a.url = false →
      ∃ d, ({ a with date := some d } : Article) ∈
          reconcile matched all_articles pool ∧
        (d ∈ pool ∨ d = dateNotFound)) := by
  unfold reconcile
  rw [if_pos h]
  refine ⟨supplementLoop_extends _ _ _ _ _, ?_, ?_⟩
  · intro a ha
    rcases hc : (matched.map (·.url)).contains a.url with _ | _
    · obtain ⟨d, hd, _⟩ :=
        supplementLoop_covers (matched.map (·.url)) pool all_articles
          matched.length matched a ha hc
      exact ⟨{ a with date := some d }, hd, rfl⟩
    · have hmem : a.url ∈ matched.map (·.url) := by simpa using hc
      obtain ⟨b, hb, hburl⟩ := List.mem_map.mp hmem
      exact ⟨b, supplementLoop_mem_acc _ _ _ _ _ _ hb, hburl⟩
  · intro a ha hc
    exact supplementLoop_covers (matched.map (·.url)) pool all_articles
      matched.length matched a ha hc

theorem reconciliation_no_loss_witness :
    ([] : List Article).length <
        [(⟨"A title of a candidate", "https://x/a", none, ""⟩ : Article)].length ∧
      (∀ a ∈ [(⟨"A title of a candidate", "https://x/a", none, ""⟩ : Article)],
        ∃ b ∈ reconcile []
            [(⟨"A title of a candidate", "https://x/a", none, ""⟩ : Article)] [],
          b.url = a.url) :=
  ⟨by decide,
    (reconciliation_no_loss []
      [(⟨"A title of a candidate", "https://x/a", none, ""⟩ : Article)] []
      (by decide)).2.1⟩

/-! ## C2: cap and ranking -/

theorem insertDesc_perm (a : Article) (l : List Article) :
    (insertDesc a l).Perm (a :: l) := by
  induction l with
  | nil => exact List.Perm.refl _
  | cons b bs ih =>
    unfold insertDesc
    split
    · exact (ih.cons b).trans (List.Perm.swap a b bs)
    · exact List.Perm.refl _

theorem sortByDateDesc_perm (l : List Article) : (sortByDateDesc l).Perm l := by
  induction l with
  | nil => exact List.Perm.refl _
  | cons a l ih =>
    have h : sortByDateDesc (a :: l) = insertDesc a (sortByDateDesc l) := rfl
    rw [h]
    exact (insertDesc_perm a (sortByDateDesc l)).trans (ih.cons a)

theorem insertDesc_pairwise {a : Article} {l : List Article}
    (hl : l.Pairwise dateGE) : (insertDesc a l).Pairwise dateGE := by
  induction l with
  | nil => simp [insertDesc]
  | cons b bs ih =>
    rw [List.pairwise_cons] at hl
    obtain ⟨hb, hbs⟩ := hl
    unfold insertDesc
    split
    · rename_i hlt
      rw [List.pairwise_cons]
      refine ⟨?_, ih hbs⟩
      intro c hc
      have hc' := (insertDesc_perm a bs).mem_iff.mp hc
      rcases List.mem_cons.mp hc' with rfl | hc''
      · exact PyDateTime.lt_asymm hlt
      · exact hb c hc''
    · rename_i hnlt
      have hab : dateGE a b := Bool.eq_false_iff.mpr hnlt
      rw [List.pairwise_cons]
      refine ⟨?_, List.pairwise_cons.mpr ⟨hb, hbs⟩⟩
      intro c hc
      rcases List.mem_cons.mp hc with rfl | hc'
      · exact hab
      · exact PyDateTime.lt_false_trans hab (hb c hc')

theorem sortByDateDesc_pairwise (l : List Article) :
    (sortByDateDesc l).Pairwise dateGE := by
  induction l with
  | nil => simp [sortByDateDesc]
  | cons a l ih =>
    have h : sortByDateDesc (a :: l) = insertDesc a (sortByDateDesc l) := rfl
    rw [h]
    exact insertDesc_pairwise ih

theorem getKey_saveFile_hist (now : String) (t n c : Nat) (h : Json) :
    Json.getKey (saveFile now t n c h) "latest_two_articles" = some h := rfl

theorem getKey_saveFile_new (now : String) (t n c : Nat) (h : Json) :
    Json.getKey (saveFile now t n c h) "new_articles_found" = some (.num n) := rfl

theorem histSelectE_saveFile (now : String) (t n c : Nat) (h : Json) :
    histSelectE (saveFile now t n c h) = (h, false) := rfl

theorem runDiscovery_empty (file : FileState) (cands : List Article)
    (now : String)
    (hk : rankAndCap (newerArticles (load_existing_articles file).existing_urls
      (load_existing_articles file).latest_date cands) = []) :
    runDiscovery file cands now =
      (match pyLen (load_existing_articles file).all_historical_articles with
       | some n => RunOutput.mk (some (saveFile now cands.length 0 n
           (load_existing_articles file).all_historical_articles)) []
       | none => RunOutput.mk none []) := by
  unfold runDiscovery
  simp only [hk, List.isEmpty_nil, if_true]

theorem runDiscovery_nonempty (file : FileState) (cands : List Article)
    (now : String)
    (hk : rankAndCap (newerArticles (load_existing_articles file).existing_urls
      (load_existing_articles file).latest_date cands) ≠ []) :
    runDiscovery file cands now =
      (match (load_existing_articles file).all_historical_articles with
       | .arr hs =>
         RunOutput.mk (some (saveFile now cands.length
             (rankAndCap (newerArticles (load_existing_articles file).existing_urls
               (load_existing_articles file).latest_date cands)).length
             (hs ++ (rankAndCap (newerArticles (load_existing_articles file).existing_urls
               (load_existing_articles file).latest_date cands)).map articleToJson).length
             (.arr (hs ++ (rankAndCap (newerArticles (load_existing_articles file).existing_urls
               (load_existing_articles file).latest_date cands)).map articleToJson))))
           (rankAndCap (newerArticles (load_existing_articles file).existing_urls
             (load_existing_articles file).latest_date cands))
       | _ => RunOutput.mk none []) := by
  unfold runDiscovery
  have h : (rankAndCap (newerArticles (load_existing_articles file).existing_urls
      (load_existing_articles file).latest_date cands)).isEmpty = false := by
    rw [List.isEmpty_eq_false_iff_exists_mem]
    rcases hl : rankAndCap (newerArticles (load_existing_articles file).existing_urls
      (load_existing_articles file).latest_date cands) with _ | ⟨x, xs⟩
    · exact absurd hl hk
    · exact ⟨x, by simp⟩
  simp only [h, Bool.false_eq_true, if_false]

/-- C2.  The rank-and-cap step (main.py 445-466): at most 2 records are
kept; every kept record is a qualifying candidate; the kept records are in
descending normalized-date order; kept plus dropped is a permutation of
the qualifying set and every kept record's date is ≥ every dropped
record's date (the kept ones are the most-recent-dated); and every file
the run writes carries a historical sequence formed from the loaded one by
appending at most 2 records. -/
theorem cap_and_ranking :
    (∀ newer : List Article, (rankAndCap newer).length ≤ 2) ∧
    (∀ newer : List Article, ∀ a ∈ rankAndCap newer, a ∈ newer) ∧
    (∀ newer : List Article, (rankAndCap newer).Pairwise dateGE) ∧
    (∀ newer : List Article,
      (rankAndCap newer ++ (sortByDateDesc newer).drop 2).Perm newer) ∧
    (∀ newer : List Article, ∀ x ∈ rankAndCap newer,
      ∀ y ∈ (sortByDateDesc newer).drop 2, dateGE x y) ∧
    (∀ (file : FileState) (cands : List Article) (now : String) (v : Json),
      (runDiscovery file cands now).savedFile = some v →
      ∃ w, Json.getKey v "latest_two_articles" = some w ∧
        (w = (load_existing_articles file).all_historical_articles ∨
         ∃ hs t, (load_existing_articles file).all_historical_articles = Json.arr hs ∧
           w = Json.arr (hs ++ t) ∧ t.length ≤ 2)) := by
  refine ⟨?_, ?_, ?_, ?_, ?_, ?_⟩
  · intro newer
    simp only [rankAndCap, List.length_take]
    omega
  · intro newer a ha
    exact (sortByDateDesc_perm newer).mem_iff.mp (List.take_subset 2 _ ha)
  · intro newer
    exact (sortByDateDesc_pairwise newer).sublist (List.take_sublist 2 _)
  · intro newer
    rw [rankAndCap, List.take_append_drop]
    exact sortByDateDesc_perm newer
  · intro newer x hx y hy
    have hp := sortByDateDesc_pairwise newer
    rw [← List.take_append_drop 2 (sortByDateDesc newer)] at hp
    exact (List.pairwise_append.mp hp).2.2 x hx y hy
  · intro file cands now v h
    by_cases hk : rankAndCap (newerArticles (load_existing_articles file).existing_urls
        (load_existing_articles file).latest_date cands) = []
    · rw [runDiscovery_empty file cands now hk] at h
      rcases hp : pyLen (load_existing_articles file).all_historical_articles with _ | n
      · rw [hp] at h
        cases h
      · rw [hp] at h
        simp only [Option.some.injEq] at h
        subst h
        exact ⟨_, getKey_saveFile_hist now cands.length 0 n _, Or.inl rfl⟩
    · rw [runDiscovery_nonempty file cands now hk] at h
      rcases hh : (load_existing_articles file).all_historical_articles with
        _ | b | m | s | hs | kvs <;> rw [hh] at h
      · cases h
      · cases h
      · cases h
      · cases h
      · injection h with h
        subst h
        refine ⟨_, getKey_saveFile_hist now cands.length _ _ _,
          Or.inr ⟨hs, _, rfl, rfl, ?_⟩⟩
        rw [List.length_map]
        simp only [rankAndCap, List.length_take]
        omega
      · cases h

theorem cap_and_ranking_witness :
    (rankAndCap []).length ≤ 2 ∧
    (∃ w, Json.getKey (saveFile "t" 0 0 0 (.arr [])) "latest_two_articles" =
        some w ∧
      (w = (load_existing_articles .absent).all_historical_articles ∨
       ∃ hs t, (load_existing_articles .absent).all_historical_articles =
           Json.arr hs ∧
         w = Json.arr (hs ++ t) ∧ t.length ≤ 2)) :=
  ⟨cap_and_ranking.1 [],
    cap_and_ranking.2.2.2.2.2 .absent [] "t" (saveFile "t" 0 0 0 (.arr [])) rfl⟩

/-! ## C5: history store round-trip and append-only save -/

theorem load_urls_latest (file : FileState) :
    ((load_existing_articles file).existing_urls,
      (load_existing_articles file).latest_date) =
      (match (load_existing_articles file).all_historical_articles with
       | .arr hs => ((loadLoop hs [] epoch).1, (loadLoop hs [] epoch).2.1)
       | _ => ([], epoch)) := by
  cases file with
  | absent => simp [load_existing_articles, loadLoop]
  | unparseable => simp [load_existing_articles, loadLoop]
  | content data =>
    rcases he : (histSelectE data).2 with _ | _
    · rcases hv : (histSelectE data).1 with _ | b | n | s | xs | kvs <;>
        simp [load_existing_articles, he, hv, loadLoop]
    · simp [load_existing_articles, he, loadLoop]

theorem load_of_saveFile (now : String) (t n c : Nat) (H : Json) :
    load_existing_articles (.content (saveFile now t n c H)) =
      (match H with
       | .arr xs => LoadResult.mk (loadLoop xs [] epoch).1
           (loadLoop xs [] epoch).2.1 (.arr xs) (loadLoop xs [] epoch).2.2
       | .str s => LoadResult.mk [] epoch (.str s) (decide (s ≠ ""))
       | .obj kvs => LoadResult.mk [] epoch (.obj kvs) (!kvs.isEmpty)
       | v => LoadResult.mk [] epoch v true) := by
  have hsel : histSelectE (saveFile now t n c H) = (H, false) := rfl
  rcases H with _ | b | m | s | xs | kvs <;> simp [load_existing_articles, hsel]

theorem history_roundtrip_core (file : FileState) (now : String)
    (total newCount histCount : Nat) :
    (load_existing_articles (.content (saveFile now total newCount histCount
        (load_existing_articles file).all_historical_articles))).existing_urls =
      (load_existing_articles file).existing_urls ∧
    (load_existing_articles (.content (saveFile now total newCount histCount
        (load_existing_articles file).all_historical_articles))).latest_date =
      (load_existing_articles file).latest_date ∧
    (load_existing_articles (.content (saveFile now total newCount histCount
        (load_existing_articles file).all_historical_articles))).all_historical_articles =
      (load_existing_articles file).all_historical_articles := by
  have h1 := load_urls_latest file
  have h2 := load_of_saveFile now total newCount histCount
    (load_existing_articles file).all_historical_articles
  rcases hH : (load_existing_articles file).all_historical_articles with
    _ | b | m | s | xs | kvs <;> rw [hH] at h1 h2 <;> rw [h2] <;> simp_all

theorem append_only_part (file : FileState) (cands : List Article)
    (now : String) (v : Json)
    (h : (runDiscovery file cands now).savedFile = some v) :
    ∃ w, Json.getKey v "latest_two_articles" = some w ∧
      ((runDiscovery file cands now).returned = [] ∧
        w = (load_existing_articles file).all_historical_articles ∨
       ∃ hs, (load_existing_articles file).all_historical_articles = Json.arr hs ∧
         w = Json.arr (hs ++
           ((runDiscovery file cands now).returned.map articleToJson))) := by
  by_cases hk : rankAndCap (newerArticles (load_existing_articles file).existing_urls
      (load_existing_articles file).latest_date cands) = []
  · rw [runDiscovery_empty file cands now hk] at h ⊢
    rcases hp : pyLen (load_existing_articles file).all_historical_articles with _ | n
    · rw [hp] at h
      cases h
    · rw [hp] at h
      simp only [Option.some.injEq] at h
      subst h
      exact ⟨_, getKey_saveFile_hist now cands.length 0 n _, Or.inl ⟨rfl, rfl⟩⟩
  · rw [runDiscovery_nonempty file cands now hk] at h ⊢
    rcases hh : (load_existing_articles file).all_historical_articles with
      _ | b | m | s | hs | kvs <;> rw [hh] at h
    · cases h
    · cases h
    · cases h
    · cases h
    · simp only [Option.some.injEq] at h
      subst h
      exact ⟨_, getKey_saveFile_hist now cands.length _ _ _,
        Or.inr ⟨hs, rfl, rfl⟩⟩
    · cases h

/-- C5.  Round-trip: writing the save object with the historical sequence
exactly as load returned it, then loading the written file, reproduces the
same `existing_urls`, the same `latest_date`, and the same sequence — for
EVERY file state, corrupt ones included, since reloading replays the same
scan.  Append-only: every file a discovery run actually writes carries
either the loaded historical value unchanged (no new articles) or the
loaded sequence with exactly the returned records appended at the end,
serialized in order — never dropped, never reordered. -/
theorem history_roundtrip_append_only :
    (∀ (file : FileState) (now : String) (total newCount histCount : Nat),
      (load_existing_articles (.content (saveFile now total newCount histCount
          (load_existing_articles file).all_historical_articles))).existing_urls =
        (load_existing_articles file).existing_urls ∧
      (load_existing_articles (.content (saveFile now total newCount histCount
          (load_existing_articles file).all_historical_articles))).latest_date =
        (load_existing_articles file).latest_date ∧
      (load_existing_articles (.content (saveFile now total newCount histCount
          (load_existing_articles
            file).all_historical_articles))).all_historical_articles =
        (load_existing_articles file).all_historical_articles) ∧
    (∀ (file : FileState) (cands : List Article) (now : String) (v : Json),
      (runDiscovery file cands now).savedFile = some v →
      ∃ w, Json.getKey v "latest_two_articles" = some w ∧
        ((runDiscovery file cands now).returned = [] ∧
          w = (load_existing_articles file).all_historical_articles ∨
         ∃ hs, (load_existing_articles file).all_historical_articles =
             Json.arr hs ∧
           w = Json.arr (hs ++
             ((runDiscovery file cands now).returned.map articleToJson)))) :=
  ⟨fun file now total newCount histCount =>
    history_roundtrip_core file now total newCount histCount,
   fun file cands now v h => append_only_part file cands now v h⟩

theorem history_roundtrip_append_only_witness :
    ((load_existing_articles (.content (saveFile "t" 0 0 0
        (load_existing_articles .absent).all_historical_articles))).existing_urls =
      (load_existing_articles .absent).existing_urls) ∧
    (∃ w, Json.getKey (saveFile "t" 0 0 0 (.arr []))
        "latest_two_articles" = some w ∧
      ((runDiscovery .absent [] "t").returned = [] ∧
        w = (load_existing_articles .absent).all_historical_articles ∨
       ∃ hs, (load_existing_articles .absent).all_historical_articles =
           Json.arr hs ∧
         w = Json.arr (hs ++
           ((runDiscovery .absent [] "t").returned.map articleToJson)))) :=
  ⟨(history_roundtrip_append_only.1 .absent "t" 0 0 0).1,
    history_roundtrip_append_only.2 .absent [] "t"
      (saveFile "t" 0 0 0 (.arr [])) rfl⟩

/-! ## Decidable equality of JSON values -/

mutual
theorem Json.eq_of_beq : (a b : Json) → Json.beq a b = true → a = b
  | .null, .null, _ => rfl
  | .bool x, .bool y, h => by
    have hxy : x = y := by simpa [Json.beq] using h
    rw [hxy]
  | .num x, .num y, h => by
    have hxy : x = y := by simpa [Json.beq] using h
    rw [hxy]
  | .str x, .str y, h => by
    have hxy : x = y := by simpa [Json.beq] using h
    rw [hxy]
  | .arr xs, .arr ys, h => by
    have hxy : xs = ys := Json.eqList_of_beqList xs ys (by simpa [Json.beq] using h)
    rw [hxy]
  | .obj xs, .obj ys, h => by
    have hxy : xs = ys := Json.eqObj_of_beqObj xs ys (by simpa [Json.beq] using h)
    rw [hxy]
  | .null, .bool _, h => nomatch h
  | .null, .num _, h => nomatch h
  | .null, .str _, h => nomatch h
  | .null, .arr _, h => nomatch h
  | .null, .obj _, h => nomatch h
  | .bool _, .null, h => nomatch h
  | .bool _, .num _, h => nomatch h
  | .bool _, .str _, h => nomatch h
  | .bool _, .arr _, h => nomatch h
  | .bool _, .obj _, h => nomatch h
  | .num _, .null, h => nomatch h
  | .num _, .bool _, h => nomatch h
  | .num _, .str _, h => nomatch h
  | .num _, .arr _, h => nomatch h
  | .num _, .obj _, h => nomatch h
  | .str _, .null, h => nomatch h
  | .str _, .bool _, h => nomatch h
  | .str _, .num _, h => nomatch h
  | .str _, .arr _, h => nomatch h
  | .str _, .obj _, h => nomatch h
  | .arr _, .null, h => nomatch h
  | .arr _, .bool _, h => nomatch h
  | .arr _, .num _, h => nomatch h
  | .arr _, .str _, h => nomatch h
  | .arr _, .obj _, h => nomatch h
  | .obj _, .null, h => nomatch h
  | .obj _, .bool _, h => nomatch h
  | .obj _, .num _, h => nomatch h
  | .obj _, .str _, h => nomatch h
  | .obj _, .arr _, h => nomatch h
theorem Json.eqList_of_beqList : (xs ys : List Json) → Json.beqList xs ys = true → xs = ys
  | [], [], _ => rfl
  | x :: xs, y :: ys, h => by
    rw [Json.beqList, Bool.and_eq_true] at h
    rw [Json.eq_of_beq x y h.1, Json.eqList_of_beqList xs ys h.2]
  | [], _ :: _, h => nomatch h
  | _ :: _, [], h => nomatch h
theorem Json.eqObj_of_beqObj :
    (xs ys : List (String × Json)) → Json.beqObj xs ys = true → xs = ys
  | [], [], _ => rfl
  | (k, v) :: xs, (l, w) :: ys, h => by
    rw [Json.beqObj, Bool.and_eq_true, Bool.and_eq_true] at h
    obtain ⟨⟨hk, hv⟩, ht⟩ := h
    have hk' : k = l := by simpa using hk
    rw [hk', Json.eq_of_beq v w hv, Json.eqObj_of_beqObj xs ys ht]
  | [], _ :: _, h => nomatch h
  | _ :: _, [], h => nomatch h
end

mutual
theorem Json.beq_self : (a : Json) → Json.beq a a = true
  | .null => rfl
  | .bool x => by simp [Json.beq]
  | .num x => by simp [Json.beq]
  | .str x => by simp [Json.beq]
  | .arr xs => by simp [Json.beq, Json.beqList_self xs]
  | .obj xs => by simp [Json.beq, Json.beqObj_self xs]
theorem Json.beqList_self : (xs : List Json) → Json.beqList xs xs = true
  | [] => rfl
  | x :: xs => by simp [Json.beqList, Json.beq_self x, Json.beqList_self xs]
theorem Json.beqObj_self : (xs : List (String × Json)) → Json.beqObj xs xs = true
  | [] => rfl
  | (k, v) :: xs => by
    simp [Json.beqObj, Json.beq_self v, Json.beqObj_self xs]
end

instance : DecidableEq Json := fun a b =>
  if h : Json.beq a b = true then isTrue (Json.eq_of_beq a b h)
  else isFalse (fun hc => h (hc ▸ Json.beq_self a))

/-! ## C3: diff monotonicity -/

theorem wfRecord_elim {a : Json} (h : wfRecord a = true) :
    ∃ kvs u, a = .obj kvs ∧ getField kvs "url" = some u ∧ hashable u = true := by
  cases a with
  | obj kvs =>
    refine ⟨kvs, ?_⟩
    simp only [wfRecord] at h
    cases hu : getField kvs "url" with
    | none => rw [hu] at h; cases h
    | some u => rw [hu] at h; exact ⟨u, rfl, rfl, h⟩
  | null => cases h
  | bool b => cases h
  | num n => cases h
  | str s => cases h
  | arr xs => cases h

theorem jsonElem_addUrl_mono (u v : Json) (urls : List Json)
    (h : jsonElem u urls = true) : jsonElem u (addUrl urls v) = true := by
  unfold addUrl
  split
  · exact h
  · unfold jsonElem at h ⊢
    rw [List.any_append]
    simp [h]

theorem jsonElem_addUrl_self (v : Json) (urls : List Json) :
    jsonElem v (addUrl urls v) = true := by
  unfold addUrl
  split
  · rename_i h
    exact h
  · unfold jsonElem
    rw [List.any_append]
    simp [Json.beq_self v]

theorem loadLoop_urls_mono (xs : List Json) :
    ∀ (urls : List Json) (d : PyDateTime) (u : Json),
      jsonElem u urls = true → jsonElem u (loadLoop xs urls d).1 = true := by
  induction xs with
  | nil => intro urls d u h; exact h
  | cons a rest ih =>
    intro urls d u h
    cases a with
    | obj kvs =>
      cases hu : getField kvs "url" with
      | none =>
        simp only [loadLoop, hu]
        exact h
      | some u' =>
        by_cases hh : hashable u'
        · simp only [loadLoop, hu, hh, if_true]
          exact ih _ _ u (jsonElem_addUrl_mono u u' urls h)
        · simp only [loadLoop, hu, hh, Bool.false_eq_true, if_false]
          exact h
    | null => simp only [loadLoop]; exact h
    | bool b => simp only [loadLoop]; exact h
    | num n => simp only [loadLoop]; exact h
    | str s => simp only [loadLoop]; exact h
    | arr ys => simp only [loadLoop]; exact h

theorem loadLoop_append (xs : List Json) :
    ∀ (ys : List Json) (urls : List Json) (d : PyDateTime),
      xs.all wfRecord = true →
      loadLoop (xs ++ ys) urls d =
        loadLoop ys (loadLoop xs urls d).1 (loadLoop xs urls d).2.1 := by
  induction xs with
  | nil => intro ys urls d _; rfl
  | cons a rest ih =>
    intro ys urls d hall
    rw [List.all_cons, Bool.and_eq_true] at hall
    obtain ⟨ha, hrest⟩ := hall
    obtain ⟨kvs, u, rfl, hu, hh⟩ := wfRecord_elim ha
    rw [List.cons_append]
    simp only [loadLoop, hu, hh, if_true]
    exact ih ys _ _ hrest

theorem loadLoop_covers_url (xs : List Json) :
    ∀ (urls : List Json) (d : PyDateTime) (kvs : List (String × Json)) (u : Json),
      xs.all wfRecord = true → (Json.obj kvs) ∈ xs →
      getField kvs "url" = some u →
      jsonElem u (loadLoop xs urls d).1 = true := by
  induction xs with
  | nil => intro urls d kvs u _ hmem; simp at hmem
  | cons a rest ih =>
    intro urls d kvs u hall hmem hu
    rw [List.all_cons, Bool.and_eq_true] at hall
    obtain ⟨ha, hrest⟩ := hall
    rcases List.mem_cons.mp hmem with heq | hmem'
    · obtain ⟨kvs', u', haeq, hu', hh'⟩ := wfRecord_elim ha
      rw [haeq] at heq
      injection heq with hkv
      subst hkv
      rw [hu] at hu'
      injection hu' with huu
      subst huu
      rw [haeq]
      simp only [loadLoop, hu, hh', if_true]
      exact loadLoop_urls_mono rest _ _ u (jsonElem_addUrl_self u urls)
    · obtain ⟨kvs', u', haeq, hu', hh'⟩ := wfRecord_elim ha
      subst haeq
      simp only [loadLoop, hu', hh', if_true]
      exact ih _ _ kvs u hrest hmem' hu

theorem loadLoop_date_ge (xs : List Json) :
    ∀ (urls : List Json) (d : PyDateTime),
      PyDateTime.lt (loadLoop xs urls d).2.1 d = false := by
  induction xs with
  | nil => intro urls d; exact PyDateTime.lt_irrefl d
  | cons a rest ih =>
    intro urls d
    cases a with
    | obj kvs =>
      cases hu : getField kvs "url" with
      | none => simp only [loadLoop, hu]; exact PyDateTime.lt_irrefl d
      | some u' =>
        by_cases hh : hashable u'
        · simp only [loadLoop, hu, hh, if_true]
          by_cases hd : PyDateTime.lt d
              (parseDateJson ((getField kvs "date").getD (Json.str "")))
          · simp only [hd, if_true]
            exact PyDateTime.lt_false_trans (ih _ _) (PyDateTime.lt_asymm hd)
          · simp only [hd, Bool.false_eq_true, if_false]
            exact ih _ _
        · simp only [loadLoop, hu, hh, Bool.false_eq_true, if_false]
          exact PyDateTime.lt_irrefl d
    | null => simp only [loadLoop]; exact PyDateTime.lt_irrefl d
    | bool b => simp only [loadLoop]; exact PyDateTime.lt_irrefl d
    | num n => simp only [loadLoop]; exact PyDateTime.lt_irrefl d
    | str s => simp only [loadLoop]; exact PyDateTime.lt_irrefl d
    | arr ys => simp only [loadLoop]; exact PyDateTime.lt_irrefl d

theorem loadLoop_covers_date (xs : List Json) :
    ∀ (urls : List Json) (d : PyDateTime) (kvs : List (String × Json)),
      xs.all wfRecord = true → (Json.obj kvs) ∈ xs →
      PyDateTime.lt (loadLoop xs urls d).2.1
        (parseDateJson ((getField kvs "date").getD (Json.str ""))) = false := by
  induction xs with
  | nil => intro urls d kvs _ hmem; simp at hmem
  | cons a rest ih =>
    intro urls d kvs hall hmem
    rw [List.all_cons, Bool.and_eq_true] at hall
    obtain ⟨ha, hrest⟩ := hall
    obtain ⟨kvs', u', haeq, hu', hh'⟩ := wfRecord_elim ha
    subst haeq
    rcases List.mem_cons.mp hmem with heq | hmem'
    · injection heq with hkv
      subst hkv
      simp only [loadLoop, hu', hh', if_true]
      by_cases hd : PyDateTime.lt d
          (parseDateJson ((getField kvs "date").getD (Json.str "")))
      · simp only [hd, if_true]
        exact loadLoop_date_ge rest _ _
      · simp only [hd, Bool.false_eq_true, if_false]
        exact PyDateTime.lt_false_trans (loadLoop_date_ge rest _ _)
          (Bool.eq_false_iff.mpr hd)
    · simp only [loadLoop, hu', hh', if_true]
      exact ih _ _ kvs hrest hmem'

theorem articleToJson_wf (a : Article) : wfRecord (articleToJson a) = true := rfl

theorem articleToJson_shape (a : Article) :
    ∃ kvs, articleToJson a = Json.obj kvs ∧
      getField kvs "url" = some (Json.str a.url) ∧
      parseDateJson ((getField kvs "date").getD (Json.str "")) =
        parseDateOpt a.date := by
  refine ⟨_, rfl, rfl, ?_⟩
  cases hd : a.date with
  | some s => simp [articleToJson, getField, hd, parseDateJson, parseDateOpt]
  | none => simp [articleToJson, getField, hd, parseDateJson, parseDateOpt]

theorem load_hist_arr (file : FileState) (hs : List Json)
    (h : (load_existing_articles file).all_historical_articles = .arr hs) :
    (load_existing_articles file).existing_urls = (loadLoop hs [] epoch).1 ∧
    (load_existing_articles file).latest_date = (loadLoop hs [] epoch).2.1 := by
  have h1 := load_urls_latest file
  rw [h] at h1
  simp at h1
  exact h1

/-- C3 as amended.  When every loaded historical record is an object with
a hashable `url` (the history parses cleanly), running link discovery
twice with the same candidate list makes the second run write
`new_articles_found = 0`, keep the historical sequence identical, and
return no articles: every article kept by the first run is excluded by
the URL set on the second, every candidate that failed the first diff
fails again (the reloaded URL set only grows and the watermark only
rises), and every candidate dropped by the cap has a date no greater than
a kept one's, hence not above the new watermark.  (The original
unconditional claim fails for malformed histories — see the
counterexample: a record without a `url` key resets the URL set and
watermark on every load, so the same articles are re-appended.) -/
theorem diff_monotonicity_wf (file : FileState) (cands : List Article)
    (now1 now2 : String)
    (hwf : wfHist (load_existing_articles file).all_historical_articles = true) :
    ∃ f1 f2,
      (runDiscovery file cands now1).savedFile = some f1 ∧
      (runDiscovery (.content f1) cands now2).savedFile = some f2 ∧
      Json.getKey f2 "new_articles_found" = some (.num 0) ∧
      Json.getKey f2 "latest_two_articles" =
        Json.getKey f1 "latest_two_articles" ∧
      (runDiscovery (.content f1) cands now2).returned = [] := by
  rcases hH : (load_existing_articles file).all_historical_articles with
    _ | b | m | s | hs | kvs
  · rw [hH] at hwf; cases hwf
  · rw [hH] at hwf; cases hwf
  · rw [hH] at hwf; cases hwf
  · rw [hH] at hwf; cases hwf
  case obj =>
    rw [hH] at hwf
    cases hwf
  case arr =>
    rw [hH] at hwf
    simp only [wfHist] at hwf
    obtain ⟨hu1, hl1⟩ := load_hist_arr file hs hH
    by_cases hk : rankAndCap (newerArticles (load_existing_articles file).existing_urls
        (load_existing_articles file).latest_date cands) = []
    · -- no new articles on the first run: the file is rewritten unchanged
      have hrun1 := runDiscovery_empty file cands now1 hk
      rw [hH] at hrun1
      simp only [pyLen] at hrun1
      refine ⟨saveFile now1 cands.length 0 hs.length (.arr hs),
        saveFile now2 cands.length 0 hs.length (.arr hs), ?_, ?_, ?_, ?_, ?_⟩
      · rw [hrun1]
      · have hload2 := load_of_saveFile now1 cands.length 0 hs.length (.arr hs)
        have hk2 : rankAndCap (newerArticles
            (load_existing_articles (.content (saveFile now1 cands.length 0
              hs.length (.arr hs)))).existing_urls
            (load_existing_articles (.content (saveFile now1 cands.length 0
              hs.length (.arr hs)))).latest_date cands) = [] := by
          rw [hload2]
          show rankAndCap (newerArticles (loadLoop hs [] epoch).1
            (loadLoop hs [] epoch).2.1 cands) = []
          rw [← hu1, ← hl1]
          exact hk
        have hrun2 := runDiscovery_empty _ cands now2 hk2
        rw [hload2] at hrun2
        simp only [pyLen] at hrun2
        rw [hrun2]
      · exact getKey_saveFile_new now2 cands.length 0 hs.length (.arr hs)
      · rfl
      · have hload2 := load_of_saveFile now1 cands.length 0 hs.length (.arr hs)
        have hk2 : rankAndCap (newerArticles
            (load_existing_articles (.content (saveFile now1 cands.length 0
              hs.length (.arr hs)))).existing_urls
            (load_existing_articles (.content (saveFile now1 cands.length 0
              hs.length (.arr hs)))).latest_date cands) = [] := by
          rw [hload2]
          show rankAndCap (newerArticles (loadLoop hs [] epoch).1
            (loadLoop hs [] epoch).2.1 cands) = []
          rw [← hu1, ← hl1]
          exact hk
        have hrun2 := runDiscovery_empty _ cands now2 hk2
        rw [hload2] at hrun2
        simp only [pyLen] at hrun2
        rw [hrun2]
    · -- new articles were appended on the first run
      set kept := rankAndCap (newerArticles (load_existing_articles file).existing_urls
        (load_existing_articles file).latest_date cands) with hkeptdef
      have hrun1 := runDiscovery_nonempty file cands now1 hk
      rw [hH] at hrun1
      have h1 : (runDiscovery file cands now1).savedFile =
          some (saveFile now1 cands.length kept.length
            (hs ++ kept.map articleToJson).length
            (.arr (hs ++ kept.map articleToJson))) := by
        rw [hrun1]
      have hallk : (kept.map articleToJson).all wfRecord = true := by
        rw [List.all_eq_true]
        intro x hx
        obtain ⟨a, _, rfl⟩ := List.mem_map.mp hx
        exact articleToJson_wf a
      have hdec := loadLoop_append hs (kept.map articleToJson) [] epoch hwf
      have hnil : newerArticles (loadLoop (hs ++ kept.map articleToJson) [] epoch).1
          (loadLoop (hs ++ kept.map articleToJson) [] epoch).2.1 cands = [] := by
        rw [newerArticles, List.filter_eq_nil_iff]
        intro c hc
        rw [Bool.not_eq_true]
        by_cases hc1 : jsonElem (Json.str c.url) (loadLoop hs [] epoch).1 = true
        · have hin : jsonElem (Json.str c.url)
              (loadLoop (hs ++ kept.map articleToJson) [] epoch).1 = true := by
            rw [hdec]
            exact loadLoop_urls_mono _ _ _ _ hc1
          simp [diffCondition, hin]
        by_cases hc2 : PyDateTime.lt (loadLoop hs [] epoch).2.1
            (parseDateOpt c.date) = true
        case neg =>
          have hge : PyDateTime.lt
              (loadLoop (hs ++ kept.map articleToJson) [] epoch).2.1
              (loadLoop hs [] epoch).2.1 = false := by
            rw [hdec]
            exact loadLoop_date_ge _ _ _
          have hD : PyDateTime.lt
              (loadLoop (hs ++ kept.map articleToJson) [] epoch).2.1
              (parseDateOpt c.date) = false :=
            PyDateTime.lt_false_trans hge (Bool.eq_false_iff.mpr hc2)
          simp [diffCondition, hD]
        case pos =>
        by_cases hc3 : is_valid_article (stripOrigin c.url) c.title c.url = true
        case neg =>
          simp [diffCondition, Bool.eq_false_iff.mpr hc3]
        case pos =>
        have hcmem : c ∈ newerArticles (load_existing_articles file).existing_urls
            (load_existing_articles file).latest_date cands := by
          rw [newerArticles, List.mem_filter]
          refine ⟨hc, ?_⟩
          simp [diffCondition, hu1, hl1, Bool.eq_false_iff.mpr hc1, hc2, hc3]
        have hsorted : c ∈ sortByDateDesc (newerArticles
            (load_existing_articles file).existing_urls
            (load_existing_articles file).latest_date cands) :=
          (sortByDateDesc_perm _).mem_iff.mpr hcmem
        rw [← List.take_append_drop 2 (sortByDateDesc (newerArticles
          (load_existing_articles file).existing_urls
          (load_existing_articles file).latest_date cands))] at hsorted
        rcases List.mem_append.mp hsorted with hckept | hcdrop
        · have hckept' : c ∈ kept := hckept
          obtain ⟨kvsc, hceq, hcurl, _⟩ := articleToJson_shape c
          have hmemj : Json.obj kvsc ∈ kept.map articleToJson := by
            rw [← hceq]
            exact List.mem_map_of_mem articleToJson hckept'
          have hin : jsonElem (Json.str c.url)
              (loadLoop (hs ++ kept.map articleToJson) [] epoch).1 = true := by
            rw [hdec]
            exact loadLoop_covers_url _ _ _ kvsc _ hallk hmemj hcurl
          simp [diffCondition, hin]
        · obtain ⟨k, hkmem⟩ := List.exists_mem_of_ne_nil kept hk
          have hkc : dateGE k c := by
            have hp := sortByDateDesc_pairwise (newerArticles
              (load_existing_articles file).existing_urls
              (load_existing_articles file).latest_date cands)
            rw [← List.take_append_drop 2 (sortByDateDesc (newerArticles
              (load_existing_articles file).existing_urls
              (load_existing_articles file).latest_date cands))] at hp
            exact (List.pairwise_append.mp hp).2.2 k hkmem c hcdrop
          obtain ⟨kvsk, hkeq, hkurl, hkdate⟩ := articleToJson_shape k
          have hmemk : Json.obj kvsk ∈ kept.map articleToJson := by
            rw [← hkeq]
            exact List.mem_map_of_mem articleToJson hkmem
          have hD2k : PyDateTime.lt
              (loadLoop (hs ++ kept.map articleToJson) [] epoch).2.1
              (parseDateOpt k.date) = false := by
            have hcd := loadLoop_covers_date (kept.map articleToJson)
              (loadLoop hs [] epoch).1 (loadLoop hs [] epoch).2.1 kvsk hallk hmemk
            rw [hkdate] at hcd
            rw [hdec]
            exact hcd
          have hD : PyDateTime.lt
              (loadLoop (hs ++ kept.map articleToJson) [] epoch).2.1
              (parseDateOpt c.date) = false :=
            PyDateTime.lt_false_trans hD2k hkc
          simp [diffCondition, hD]
      have hload2 := load_of_saveFile now1 cands.length kept.length
        (hs ++ kept.map articleToJson).length (.arr (hs ++ kept.map articleToJson))
      have hk2 : rankAndCap (newerArticles
          (load_existing_articles (.content (saveFile now1 cands.length kept.length
            (hs ++ kept.map articleToJson).length
            (.arr (hs ++ kept.map articleToJson))))).existing_urls
          (load_existing_articles (.content (saveFile now1 cands.length kept.length
            (hs ++ kept.map articleToJson).length
            (.arr (hs ++ kept.map articleToJson))))).latest_date cands) = [] := by
        rw [hload2]
        show rankAndCap (newerArticles
          (loadLoop (hs ++ kept.map articleToJson) [] epoch).1
          (loadLoop (hs ++ kept.map articleToJson) [] epoch).2.1 cands) = []
        rw [hnil]
        rfl
      have hrun2 := runDiscovery_empty _ cands now2 hk2
      rw [hload2] at hrun2
      simp only [pyLen] at hrun2
      refine ⟨saveFile now1 cands.length kept.length
          (hs ++ kept.map articleToJson).length
          (.arr (hs ++ kept.map articleToJson)),
        saveFile now2 cands.length 0 (hs ++ kept.map articleToJson).length
          (.arr (hs ++ kept.map articleToJson)), h1, ?_, ?_, ?_, ?_⟩
      · rw [hrun2]
      · exact getKey_saveFile_new now2 cands.length 0 _ _
      · rfl
      · rw [hrun2]


theorem diff_monotonicity_wf_witness :
    wfHist (load_existing_articles .absent).all_historical_articles = true ∧
    (∃ f1 f2,
      (runDiscovery .absent [] "t1").savedFile = some f1 ∧
      (runDiscovery (.content f1) [] "t2").savedFile = some f2 ∧
      Json.getKey f2 "new_articles_found" = some (.num 0) ∧
      Json.getKey f2 "latest_two_articles" =
        Json.getKey f1 "latest_two_articles" ∧
      (runDiscovery (.content f1) [] "t2").returned = []) :=
  ⟨rfl, diff_monotonicity_wf .absent [] "t1" "t2" rfl⟩

/-- C3 counterexample.  History state `[{"title": "x"}]` (a record with no
`url` key) with one fixed valid candidate: the first run appends the
candidate, but the second run — with NO page changes — re-appends it and
writes `new_articles_found = 1`, because loading the saved file hits the
bad record first, resets `existing_urls` to empty and the watermark to the
floor, and the diff treats the same article as new again.  This refutes
"running Link Discovery twice with the same candidate set yields
new_articles_found = 0 on the second run, and the persisted historical
sequence length is unchanged" as stated for every history state. -/
theorem diff_monotonicity_cex :
    (runDiscovery (.content (Json.arr [Json.obj [("title", Json.str "x")]]))
        [⟨"Quantum insight frontier",
          "https://www.mckinsey.com/our-insights/abcdefghijkl",
          some "September 10, 2025", ""⟩] "t1").savedFile =
      some (saveFile "t1" 1 1 2 (Json.arr [Json.obj [("title", Json.str "x")],
        articleToJson ⟨"Quantum insight frontier",
          "https://www.mckinsey.com/our-insights/abcdefghijkl",
          some "September 10, 2025", ""⟩])) ∧
    (runDiscovery (.content (saveFile "t1" 1 1 2
        (Json.arr [Json.obj [("title", Json.str "x")],
          articleToJson ⟨"Quantum insight frontier",
            "https://www.mckinsey.com/our-insights/abcdefghijkl",
            some "September 10, 2025", ""⟩])))
        [⟨"Quantum insight frontier",
          "https://www.mckinsey.com/our-insights/abcdefghijkl",
          some "September 10, 2025", ""⟩] "t2").returned =
      [⟨"Quantum insight frontier",
        "https://www.mckinsey.com/our-insights/abcdefghijkl",
        some "September 10, 2025", ""⟩] ∧
    ((runDiscovery (.content (saveFile "t1" 1 1 2
        (Json.arr [Json.obj [("title", Json.str "x")],
          articleToJson ⟨"Quantum insight frontier",
            "https://www.mckinsey.com/our-insights/abcdefghijkl",
            some "September 10, 2025", ""⟩])))
        [⟨"Quantum insight frontier",
          "https://www.mckinsey.com/our-insights/abcdefghijkl",
          some "September 10, 2025", ""⟩] "t2").savedFile.getD Json.null).getKey
      "new_articles_found" = some (Json.num 1) := by
  refine ⟨by decide, by decide, by decide⟩
